import Mathlib

/-!
Verification of the conversation-context and streaming-response engine of the
Agent_Smith Discord/Ollama bridge. Python source functions are shallowly
embedded as executable Lean functions over `List Char` (one Lean `Char` per
Python character, ASCII-faithful where the code manipulates ASCII), and the
claims of the specification are settled as theorems about those embeddings.
-/

/-- Text is modelled as a list of characters (Python `str`). -/
abbrev Str := List Char

/-- Coerce a Lean string literal to the `Str` model. -/
def str (s : String) : Str := s.data

/-- Python whitespace class for `str.strip()` / `str.split()` (ASCII subset). -/
def isSpaceCh (c : Char) : Bool :=
  c = ' ' || c = '\t' || c = '\n' || c = '\r' || c = '\x0b' || c = '\x0c'

/-- Python `str.strip()`: drop leading and trailing whitespace. -/
def pyStripWith (p : Char → Bool) (l : Str) : Str :=
  ((l.dropWhile p).reverse.dropWhile p).reverse

/-- Python `str.strip()` with no arguments. -/
def pyStrip (l : Str) : Str := pyStripWith isSpaceCh l

/-- ASCII lowercasing, as applied by `str.lower()` on the ASCII texts involved. -/
def toLowerPy (c : Char) : Char :=
  if 'A' ≤ c ∧ c ≤ 'Z' then Char.ofNat (c.toNat + 32) else c

/-- `str.lower()` over the whole text. -/
def lowerL (l : Str) : Str := l.map toLowerPy

/-!
## Message chunker — `utils/formatting.py`, `split_message`
-/

/-- Line-break characters recognised by Python `str.splitlines`. -/
def isLineBreak (c : Char) : Bool :=
  c = '\n' || c = '\r' || c = '\x0b' || c = '\x0c' ||
  c = '\x1c' || c = '\x1d' || c = '\x1e' || c = Char.ofNat 0x85 ||
  c = Char.ofNat 0x2028 || c = Char.ofNat 0x2029

/-- Worker for `str.splitlines(keepends=True)`: `cur` is the reversed
    accumulator of the current (unterminated) line. A trailing `\r` in `cur`
    is a pending line ending: it closes the line unless the next character is
    `\n`, in which case `\r\n` stays together as one ending, as in Python. -/
def slGo (cur : Str) : Str → List Str
  | [] => if cur = [] then [] else [cur.reverse]
  | c :: rest =>
    if cur.head? = some '\r' then
      if c = '\n' then (cur.reverse ++ ['\n']) :: slGo [] rest
      else if c = '\r' then cur.reverse :: slGo [c] rest
      else if isLineBreak c then cur.reverse :: [c] :: slGo [] rest
      else cur.reverse :: slGo [c] rest
    else
      if c = '\r' then slGo (c :: cur) rest
      else if isLineBreak c then (c :: cur).reverse :: slGo [] rest
      else slGo (c :: cur) rest

/-- Python `text.splitlines(keepends=True)`. -/
def splitlinesKE (l : Str) : List Str := slGo [] l

/-- Fuelled worker for the hard-split `while len(line) > max_length` loop of
    `split_message`. Fuel `l.length` always suffices when `0 < max` (each
    iteration drops `max ≥ 1` characters); for `max = 0` the Python loop does
    not terminate, so all theorems below assume `0 < max`. Returns the list of
    emitted pieces together with the final leftover line. -/
def hsGo (max : Nat) : Nat → Str → List Str × Str
  | 0, l => ([], l)
  | fuel + 1, l =>
    if l.length > max then
      let r := hsGo max fuel (l.drop max)
      (l.take max :: r.1, r.2)
    else ([], l)

/-- The `while len(line) > max_length` hard-split loop. -/
def hardSplit (max : Nat) (l : Str) : List Str × Str := hsGo max l.length l

/-- One iteration of the `for line in text.splitlines(keepends=True)` loop of
    `split_message`: state is `(chunks, current)`. -/
def splitStep (max : Nat) (acc : List Str × Str) (line : Str) : List Str × Str :=
  let chunks := acc.1
  let current := acc.2
  if current.length + line.length > max then
    let flushed := if current = [] then chunks else chunks ++ [current]
    let hs := hardSplit max line
    (flushed ++ hs.1, hs.2)
  else (chunks, current ++ line)

/-- The placeholder returned for empty input. -/
def emptyRespStr : Str := str "*(empty response)*"

/-- Final lines of `split_message`: append the pending chunk if non-empty and
    apply the `chunks or [placeholder]` fallback. -/
def splitFinish (acc : List Str × Str) : List Str :=
  let chunks := if acc.2 = [] then acc.1 else acc.1 ++ [acc.2]
  if chunks = [] then [emptyRespStr] else chunks

/-- `utils/formatting.py::split_message`. -/
def split_message (text : Str) (max : Nat) : List Str :=
  if text = [] then [emptyRespStr]
  else if text.length ≤ max then [text]
  else splitFinish ((splitlinesKE text).foldl (splitStep max) ([], []))

example : split_message (str "ab\ncd") 3 = [str "ab\n", str "cd"] := by decide
example : split_message (str "abcdefg") 3 = [str "abc", str "def", str "g"] := by decide
example : split_message [] 7 = [emptyRespStr] := by decide
example : split_message (str "hi") 2000 = [str "hi"] := by decide


example : splitlinesKE (str "a\r\rb") = [str "a\r", str "\r", str "b"] := by decide
example : splitlinesKE (str "a\r\nb\nc") = [str "a\r\n", str "b\n", str "c"] := by decide
example : splitlinesKE (str "ab\r") = [str "ab\r"] := by decide
example : splitlinesKE (str "\n\n") = [str "\n", str "\n"] := by decide

/-!
## Chunker lemmas
-/

lemma slGo_flatten (l : Str) : ∀ cur : Str, (slGo cur l).flatten = cur.reverse ++ l := by
  induction l with
  | nil =>
    intro cur
    by_cases h : cur = [] <;> simp [slGo, h]
  | cons c rest ih =>
    intro cur
    by_cases hpend : cur.head? = some '\r'
    · obtain ⟨c0, cur', rfl⟩ : ∃ c0 cur', cur = c0 :: cur' := by
        cases cur with
        | nil => simp at hpend
        | cons a b => exact ⟨a, b, rfl⟩
      have hc0 : c0 = '\r' := by simpa using hpend
      subst hc0
      by_cases h1 : c = '\n'
      · simp [slGo, hpend, h1, ih]
      · by_cases h2 : c = '\r'
        · simp [slGo, hpend, h1, h2, ih]
        · by_cases h3 : isLineBreak c
          · simp [slGo, hpend, h1, h2, h3, ih]
          · simp [slGo, hpend, h1, h2, h3, ih]
    · by_cases h2 : c = '\r'
      · simp [slGo, hpend, h2, ih]
      · by_cases h3 : isLineBreak c
        · simp [slGo, hpend, h2, h3, ih]
        · simp [slGo, hpend, h2, h3, ih]

lemma splitlinesKE_flatten (l : Str) : (splitlinesKE l).flatten = l := by
  simpa using slGo_flatten l []

lemma hsGo_flatten (max fuel : Nat) (hmax : 0 < max) :
    ∀ l : Str, (hsGo max fuel l).1.flatten ++ (hsGo max fuel l).2 = l ∧
      (∀ p ∈ (hsGo max fuel l).1, p ≠ [] ∧ p.length ≤ max) := by
  induction fuel with
  | zero => intro l; simp [hsGo]
  | succ fuel ih =>
    intro l
    by_cases h : l.length > max
    · have hrec := ih (l.drop max)
      constructor
      · simp only [hsGo, if_pos h]
        rw [List.flatten_cons, List.append_assoc, hrec.1, List.take_append_drop]
      · simp only [hsGo, if_pos h]
        intro p hp
        rcases List.mem_cons.mp hp with hp | hp
        · subst hp
          have hlen : (List.take max l).length = max := by
            rw [List.length_take]
            omega
          constructor
          · intro hcon
            rw [hcon] at hlen
            simp at hlen
            omega
          · rw [hlen]
        · exact hrec.2 p hp
    · simp [hsGo, if_neg h]

lemma hsGo_left_le (max : Nat) (hmax : 0 < max) :
    ∀ fuel (l : Str), l.length ≤ fuel → (hsGo max fuel l).2.length ≤ max := by
  intro fuel
  induction fuel with
  | zero =>
    intro l hl
    have : l = [] := by
      cases l
      · rfl
      · simp at hl
    subst this
    simp [hsGo]
  | succ fuel ih =>
    intro l hl
    by_cases h : l.length > max
    · simp only [hsGo, if_pos h]
      exact ih (l.drop max) (by simp [List.length_drop]; omega)
    · simp only [hsGo, if_neg h]
      omega

lemma hardSplit_spec (max : Nat) (hmax : 0 < max) (l : Str) :
    (hardSplit max l).1.flatten ++ (hardSplit max l).2 = l ∧
    (∀ p ∈ (hardSplit max l).1, p ≠ [] ∧ p.length ≤ max) ∧
    (hardSplit max l).2.length ≤ max :=
  ⟨(hsGo_flatten max l.length hmax l).1, (hsGo_flatten max l.length hmax l).2,
    hsGo_left_le max hmax l.length l le_rfl⟩

/-- Invariant preserved by the line-accumulation loop of `split_message`:
    the current chunk stays within bounds, every flushed chunk is non-empty
    and within bounds, and no text is lost or duplicated. -/
lemma foldl_splitStep_inv (max : Nat) (hmax : 0 < max) :
    ∀ (lines : List Str) (chunks : List Str) (current : Str),
      current.length ≤ max →
      (∀ c ∈ chunks, c ≠ [] ∧ c.length ≤ max) →
      ((List.foldl (splitStep max) (chunks, current) lines).2.length ≤ max ∧
       (∀ c ∈ (List.foldl (splitStep max) (chunks, current) lines).1,
          c ≠ [] ∧ c.length ≤ max) ∧
       (List.foldl (splitStep max) (chunks, current) lines).1.flatten ++
         (List.foldl (splitStep max) (chunks, current) lines).2 =
         chunks.flatten ++ current ++ lines.flatten) := by
  intro lines
  induction lines with
  | nil =>
    intro chunks current h1 h2
    simpa using ⟨h1, h2⟩
  | cons line rest ih =>
    intro chunks current h1 h2
    rw [List.foldl_cons]
    by_cases hover : current.length + line.length > max
    · have hstep : splitStep max (chunks, current) line =
        ((if current = [] then chunks else chunks ++ [current]) ++ (hardSplit max line).1,
          (hardSplit max line).2) := by
        simp [splitStep, hover]
      rw [hstep]
      have hhs := hardSplit_spec max hmax line
      have hflush : ∀ c ∈ (if current = [] then chunks else chunks ++ [current]),
          c ≠ [] ∧ c.length ≤ max := by
        by_cases hc : current = []
        · simpa [hc] using h2
        · intro c hcmem
          simp only [if_neg hc, List.mem_append, List.mem_singleton] at hcmem
          rcases hcmem with hcmem | hcmem
          · exact h2 c hcmem
          · subst hcmem; exact ⟨hc, h1⟩
      have hmem : ∀ c ∈ (if current = [] then chunks else chunks ++ [current]) ++
          (hardSplit max line).1, c ≠ [] ∧ c.length ≤ max := by
        intro c hcmem
        rcases List.mem_append.mp hcmem with hcmem | hcmem
        · exact hflush c hcmem
        · exact hhs.2.1 c hcmem
      have hrec := ih ((if current = [] then chunks else chunks ++ [current]) ++
          (hardSplit max line).1) (hardSplit max line).2 hhs.2.2 hmem
      refine ⟨hrec.1, hrec.2.1, ?_⟩
      rw [hrec.2.2]
      have hjoin : ((if current = [] then chunks else chunks ++ [current]) ++
          (hardSplit max line).1).flatten ++ (hardSplit max line).2 =
          chunks.flatten ++ current ++ line := by
        by_cases hc : current = []
        · simp [hc, List.flatten_append, List.append_assoc, hhs.1]
        · simp [hc, List.flatten_append, List.append_assoc, hhs.1]
      rw [show ((if current = [] then chunks else chunks ++ [current]) ++
          (hardSplit max line).1).flatten ++ (hardSplit max line).2 ++ rest.flatten =
          (((if current = [] then chunks else chunks ++ [current]) ++
          (hardSplit max line).1).flatten ++ (hardSplit max line).2) ++ rest.flatten from rfl,
        hjoin]
      simp [List.append_assoc]
    · have hstep : splitStep max (chunks, current) line = (chunks, current ++ line) := by
        simp [splitStep, hover]
      rw [hstep]
      have hcur : (current ++ line).length ≤ max := by
        simp only [List.length_append]
        omega
      have hrec := ih chunks (current ++ line) hcur h2
      refine ⟨hrec.1, hrec.2.1, ?_⟩
      rw [hrec.2.2]
      simp [List.append_assoc]

lemma slGo_nobreak (l : Str) : ∀ cur : Str,
    (∀ c ∈ l, isLineBreak c = false) → (∀ c ∈ cur, isLineBreak c = false) →
    slGo cur l = if cur = [] ∧ l = [] then [] else [cur.reverse ++ l] := by
  induction l with
  | nil =>
    intro cur _ _
    by_cases h : cur = [] <;> simp [slGo, h]
  | cons c rest ih =>
    intro cur hl hcur
    have hc : isLineBreak c = false := hl c (List.mem_cons_self c rest)
    have hcr : ¬ c = '\r' := by
      intro h
      rw [h] at hc
      simp [isLineBreak] at hc
    have hpend : ¬ cur.head? = some '\r' := by
      intro h
      cases cur with
      | nil => simp at h
      | cons a b =>
        have : isLineBreak a = false := hcur a (List.mem_cons_self a b)
        simp at h
        rw [h] at this
        simp [isLineBreak] at this
    have hrec := ih (c :: cur) (fun d hd => hl d (List.mem_cons_of_mem c hd))
      (fun d hd => by
        rcases List.mem_cons.mp hd with hd | hd
        · subst hd; exact hc
        · exact hcur d hd)
    rw [show slGo cur (c :: rest) = slGo (c :: cur) rest from by
      simp [slGo, hpend, hcr, hc]]
    rw [hrec]
    simp

lemma splitlinesKE_nobreak (l : Str) (hl : ∀ c ∈ l, isLineBreak c = false)
    (hne : l ≠ []) : splitlinesKE l = [l] := by
  unfold splitlinesKE
  rw [slGo_nobreak l [] hl (by simp)]
  simp [hne]

lemma hsGo_replicate (a : Char) : ∀ (q max r fuel : Nat), 0 < max → 0 < r → r ≤ max →
    q * max + r ≤ fuel →
    hsGo max fuel (List.replicate (q * max + r) a) =
      (List.replicate q (List.replicate max a), List.replicate r a) := by
  intro q
  induction q with
  | zero =>
    intro max r fuel hmax hr hrm hfuel
    simp only [Nat.zero_mul, Nat.zero_add] at hfuel ⊢
    cases fuel with
    | zero => omega
    | succ f =>
      show hsGo max (f + 1) (List.replicate r a) = _
      simp only [hsGo]
      rw [if_neg (by rw [List.length_replicate]; omega)]
      simp
  | succ q ih =>
    intro max r fuel hmax hr hrm hfuel
    have hN : (q + 1) * max + r = max + (q * max + r) := by ring
    rw [hN] at hfuel ⊢
    cases fuel with
    | zero => omega
    | succ f =>
      have hgt : (List.replicate (max + (q * max + r)) a).length > max := by
        simp only [List.length_replicate]
        omega
      simp only [hsGo, if_pos hgt]
      have htake : List.take max (List.replicate (max + (q * max + r)) a) =
          List.replicate max a := by
        rw [List.take_replicate]
        congr 1
        omega
      have hdrop : List.drop max (List.replicate (max + (q * max + r)) a) =
          List.replicate (q * max + r) a := by
        rw [List.drop_replicate]
        congr 1
        omega
      rw [htake, hdrop, ih max r f hmax hr hrm (by omega)]
      rw [List.replicate_succ]

lemma replicate_nonempty (n : Nat) (a : Char) (h : 0 < n) : List.replicate n a ≠ [] := by
  intro hcon
  have hlen := congrArg List.length hcon
  rw [List.length_replicate, List.length_nil] at hlen
  omega

lemma splitFinish_of_nil (acc : List Str × Str) (h2 : acc.2 = []) :
    splitFinish acc = if acc.1 = [] then [emptyRespStr] else acc.1 := by
  unfold splitFinish
  rw [h2]
  simp

lemma splitFinish_of_ne (acc : List Str × Str) (h2 : acc.2 ≠ []) :
    splitFinish acc = acc.1 ++ [acc.2] := by
  unfold splitFinish
  simp only [if_neg h2]
  rw [if_neg (by simp)]

lemma splitStep_empty_over (max : Nat) (line : Str) (h : line.length > max) :
    splitStep max ([], []) line = ((hardSplit max line).1, (hardSplit max line).2) := by
  unfold splitStep
  simp [h]

lemma split_message_rep4500 :
    split_message (List.replicate 4500 'a') 2000 =
      [List.replicate 2000 'a', List.replicate 2000 'a', List.replicate 500 'a'] := by
  have hne : (List.replicate 4500 'a') ≠ [] := replicate_nonempty 4500 'a' (by norm_num)
  have hnb : ∀ c ∈ List.replicate 4500 'a', isLineBreak c = false := by
    intro c hc
    rw [List.eq_of_mem_replicate hc]
    decide
  have hlines : splitlinesKE (List.replicate 4500 'a') = [List.replicate 4500 'a'] :=
    splitlinesKE_nobreak _ hnb hne
  have hhs : hardSplit 2000 (List.replicate 4500 'a') =
      ([List.replicate 2000 'a', List.replicate 2000 'a'], List.replicate 500 'a') := by
    unfold hardSplit
    rw [List.length_replicate]
    rw [show (4500 : Nat) = 2 * 2000 + 500 by norm_num]
    rw [hsGo_replicate 'a' 2 2000 500 (2 * 2000 + 500) (by norm_num) (by norm_num)
      (by norm_num) le_rfl]
    rfl
  have hstep : splitStep 2000 ([], []) (List.replicate 4500 'a') =
      ([List.replicate 2000 'a', List.replicate 2000 'a'], List.replicate 500 'a') := by
    rw [splitStep_empty_over 2000 _ (by rw [List.length_replicate]; norm_num), hhs]
  unfold split_message
  rw [if_neg hne]
  rw [if_neg (by rw [List.length_replicate]; norm_num :
    ¬ (List.replicate 4500 'a').length ≤ 2000)]
  rw [hlines, List.foldl_cons, hstep, List.foldl_nil]
  rw [splitFinish_of_ne _ (replicate_nonempty 500 'a' (by norm_num))]
  rfl

lemma split_message_sound (text : Str) (max : Nat) (hmax : 0 < max) (hne : text ≠ []) :
    (∀ c ∈ split_message text max, c ≠ [] ∧ c.length ≤ max) ∧
    (split_message text max).flatten = text := by
  by_cases hle : text.length ≤ max
  · unfold split_message
    rw [if_neg hne, if_pos hle]
    constructor
    · intro c hc
      simp only [List.mem_singleton] at hc
      subst hc
      exact ⟨hne, hle⟩
    · simp
  · unfold split_message
    rw [if_neg hne, if_neg hle]
    have inv := foldl_splitStep_inv max hmax (splitlinesKE text) [] [] (by simp) (by simp)
    set F := (splitlinesKE text).foldl (splitStep max) ([], []) with hF
    have hflat : F.1.flatten ++ F.2 = text := by
      have h0 := inv.2.2
      simpa [splitlinesKE_flatten] using h0
    have hbounds : ∀ c ∈ F.1, c ≠ [] ∧ c.length ≤ max := inv.2.1
    have hcurlen : F.2.length ≤ max := inv.1
    by_cases h2 : F.2 = []
    · rw [splitFinish_of_nil F h2]
      rw [h2, List.append_nil] at hflat
      have hne1 : F.1 ≠ [] := by
        intro hcon
        rw [hcon] at hflat
        simp at hflat
        exact hne hflat
      rw [if_neg hne1]
      exact ⟨hbounds, hflat⟩
    · rw [splitFinish_of_ne F h2]
      constructor
      · intro c hc
        rcases List.mem_append.mp hc with hc | hc
        · exact hbounds c hc
        · simp only [List.mem_singleton] at hc
          subst hc
          exact ⟨h2, hcurlen⟩
      · rw [List.flatten_append]
        simpa using hflat

lemma split_message_ne_nil (text : Str) (max : Nat) : split_message text max ≠ [] := by
  unfold split_message
  by_cases h1 : text = []
  · simp [h1]
  · rw [if_neg h1]
    by_cases h2 : text.length ≤ max
    · simp [h2]
    · rw [if_neg h2]
      by_cases h3 : ((splitlinesKE text).foldl (splitStep max) ([], [])).2 = []
      · rw [splitFinish_of_nil _ h3]
        by_cases h4 : ((splitlinesKE text).foldl (splitStep max) ([], [])).1 = []
        · rw [if_pos h4]
          simp
        · rw [if_neg h4]
          exact h4
      · rw [splitFinish_of_ne _ h3]
        simp

/-- C3 (amended): for every positive maxLength, `split_message` returns a
    non-empty sequence of chunks; for every non-empty input every chunk has
    length at most maxLength and the concatenation of all chunks reproduces
    the input exactly; empty input yields exactly one placeholder chunk (the
    fixed 18-character string `*(empty response)*`, which is not bounded by
    maxLength); and a 4500-character no-newline text with maxLength 2000
    yields exactly 3 chunks, the first two of length exactly 2000. -/
theorem C3_split_message_amended (text : Str) (max : Nat) (hmax : 0 < max) :
    split_message text max ≠ [] ∧
    (text ≠ [] → (∀ c ∈ split_message text max, c.length ≤ max) ∧
      (split_message text max).flatten = text) ∧
    (text = [] → split_message text max = [emptyRespStr]) ∧
    split_message (List.replicate 4500 'a') 2000 =
      [List.replicate 2000 'a', List.replicate 2000 'a', List.replicate 500 'a'] ∧
    (List.replicate 2000 'a').length = 2000 := by
  refine ⟨split_message_ne_nil text max, ?_, ?_, split_message_rep4500,
    by rw [List.length_replicate]⟩
  · intro hne
    exact ⟨fun c hc => ((split_message_sound text max hmax hne).1 c hc).2,
      (split_message_sound text max hmax hne).2⟩
  · intro h
    subst h
    unfold split_message
    simp

/-- C3 counterexample: the claim requires every chunk to have length at most
    maxLength for every input and maxLength, but for empty input and
    maxLength 10 the single placeholder chunk has length 18 > 10. -/
theorem C3_split_message_counterexample :
    split_message [] 10 = [emptyRespStr] ∧ emptyRespStr.length = 18 ∧
    ¬ (∀ c ∈ split_message [] 10, c.length ≤ 10) := by decide

theorem C3_split_message_witness :
    (0 : Nat) < 3 ∧ (split_message (str "ab\ncd") 3).flatten = str "ab\ncd" :=
  ⟨by decide, ((C3_split_message_amended (str "ab\ncd") 3 (by decide)).2.1 (by decide)).2⟩

/-- C10: for every input text and every positive maxLength, every chunk
    returned by `split_message` is a non-empty string, in all three paths
    (line accumulation, hard split, and the empty-input placeholder). -/
theorem C10_chunks_nonempty (text : Str) (max : Nat) (hmax : 0 < max) :
    ∀ c ∈ split_message text max, c ≠ [] := by
  intro c hc
  by_cases hne : text = []
  · subst hne
    rw [show split_message [] max = [emptyRespStr] from by unfold split_message; simp] at hc
    simp only [List.mem_singleton] at hc
    subst hc
    decide
  · exact ((split_message_sound text max hmax hne).1 c hc).1

theorem C10_chunks_nonempty_witness :
    (0 : Nat) < 3 ∧ str "abc" ∈ split_message (str "abcdefg") 3 ∧ str "abc" ≠ [] :=
  ⟨by decide, by decide, C10_chunks_nonempty (str "abcdefg") 3 (by decide) (str "abc")
    (by decide)⟩

/-!
## Deterministic query resolver — `bot/events.py`,
`ChatCog._resolve_previous_message_query`

The two regular expressions of the source are embedded as explicit
backtracking matchers with Python `re` semantics (leftmost match, greedy
`\s+`, preferred optional group, lazy `(.+?)`, `$` also matching before a
final newline, `.` not matching a newline, IGNORECASE on ASCII letters).
-/

/-- Python regex word characters `\w` (ASCII). -/
def isWordCh (c : Char) : Bool :=
  ('a' ≤ c && c ≤ 'z') || ('A' ≤ c && c ≤ 'Z') || ('0' ≤ c && c ≤ '9') || c = '_'

/-- `\s+`: every possible remainder after consuming at least one whitespace
    character, in engine priority order (greediest first). -/
def wsPlus (l : Str) : List Str :=
  let run := (l.takeWhile isSpaceCh).length
  (List.range run).map (fun j => l.drop (run - j))

/-- Case-insensitive literal: consume `pat` (given lowercase) from `l`. -/
def litCI (pat : Str) (l : Str) : Option Str :=
  if (l.take pat.length).map toLowerPy = pat then some (l.drop pat.length) else none

/-- `\b` after a word: the next character, if any, is not a word character. -/
def noWordAhead (l : Str) : Bool :=
  match l.head? with
  | none => true
  | some c => !(isWordCh c)

/-- Attempt `before\s+reset\b` at the current position. -/
def brTryAt (l : Str) : Bool :=
  match litCI (str "before") l with
  | none => false
  | some r1 =>
    (wsPlus r1).any (fun r2 =>
      match litCI (str "reset") r2 with
      | none => false
      | some r3 => noWordAhead r3)

/-- Scan for `\bbefore\s+reset\b` (the `\b` before `before` holds exactly when
    the previous character is not a word character). -/
def brScan (prevIsWord : Bool) : Str → Bool
  | [] => false
  | c :: rest => (!prevIsWord && brTryAt (c :: rest)) || brScan (isWordCh c) rest

/-- `re.search(r"\bbefore\s+reset\b", lower_content)` as a Boolean. -/
def matchesBeforeReset (l : Str) : Bool := brScan false l

/-- Character at index `k`, if any. -/
def charAt (r : Str) (k : Nat) : Option Char := (r.drop k).head?

/-- `(?:\?|$)` at offset `k` of the group remainder: a literal `?`, the end of
    the string, or the position just before a final newline. -/
def endOkB (r : Str) (k : Nat) : Bool :=
  (charAt r k == some '?') || (k == r.length) ||
    ((k + 1 == r.length) && (charAt r k == some '\n'))

/-- Lazy `(.+?)(?:\?|$)`: the shortest non-empty newline-free prefix of `r`
    whose end position satisfies `endOkB`. -/
def tryGroup (r : Str) : Option Str :=
  (((List.range r.length).map (· + 1)).find?
    (fun k => (r.take k).all (fun c => !(c == '\n')) && endOkB r k)).map
    (fun k => r.take k)

/-- All parses of `what\s+was\s+(?:the\s+)?message\s+before\s+` from the
    current position, as remainders in engine priority order. -/
def bPrefixRems (l : Str) : List Str :=
  match litCI (str "what") l with
  | none => []
  | some r1 =>
    (wsPlus r1).flatMap (fun r2 =>
      match litCI (str "was") r2 with
      | none => []
      | some r3 =>
        (wsPlus r3).flatMap (fun r4 =>
          let withThe :=
            match litCI (str "the") r4 with
            | none => []
            | some r5 => wsPlus r5
          (withThe ++ [r4]).flatMap (fun r6 =>
            match litCI (str "message") r6 with
            | none => []
            | some r7 =>
              (wsPlus r7).flatMap (fun r8 =>
                match litCI (str "before") r8 with
                | none => []
                | some r9 => wsPlus r9))))

/-- Attempt the full pattern B at the current position, returning group 1. -/
def bTryAt (l : Str) : Option Str := (bPrefixRems l).findSome? tryGroup

/-- Leftmost search for pattern B. -/
def bScan (prevIsWord : Bool) : Str → Option Str
  | [] => none
  | c :: rest =>
    match (if prevIsWord then none else bTryAt (c :: rest)) with
    | some g => some g
    | none => bScan (isWordCh c) rest

/-- `re.search(r"\bwhat\s+was\s+(?:the\s+)?message\s+before\s+(.+?)(?:\?|$)",
    content, re.IGNORECASE)`, returning `group(1)`. -/
def matchB (content : Str) : Option Str := bScan false content

/-- `re.search(r'"([^"]+)"', s)`, returning the first quoted group. -/
def fqGo : Str → Option Str
  | [] => none
  | c :: rest =>
    if c = '"' then
      let inner := rest.takeWhile (fun d => !(d == '"'))
      if inner.length > 0 && (rest.drop inner.length).length > 0 then some inner
      else fqGo rest
    else fqGo rest

/-- Worker for Python `str.split()` with no separator: whitespace runs are
    separators, empty fields are dropped; `cur` is the reversed current word. -/
def pwGo (cur : Str) : Str → List Str
  | [] => if cur = [] then [] else [cur.reverse]
  | c :: rest =>
    if isSpaceCh c then
      if cur = [] then pwGo [] rest else cur.reverse :: pwGo [] rest
    else pwGo (c :: cur) rest

/-- Python `str.split()`. -/
def pySplitWs (l : Str) : List Str := pwGo [] l

/-- `ChatCog._normalize_text`: strip, lowercase, collapse whitespace runs. -/
def normalizeTxt (l : Str) : Str := List.intercalate [' '] (pySplitWs (lowerL l))

/-- The character set of `.strip('"\x27\x60 ')` in the source. -/
def isQuoteStripCh (c : Char) : Bool :=
  c = '"' || c = Char.ofNat 39 || c = Char.ofNat 96 || c = ' '

/-- Python substring containment `pat in l`. -/
def isSubstr (pat : Str) : Str → Bool
  | [] => pat.isPrefixOf []
  | c :: rest => pat.isPrefixOf (c :: rest) || isSubstr pat rest

example : matchB (str "what was the message before \"I like dogs\"") =
  some (str "\"I like dogs\"") := by decide
example : matchB (str "What was message before lunch?") = some (str "lunch") := by decide
example : matchB (str "what was the message before   ") = some (str " ") := by decide
example : matchB (str "so, what was the message before x? and then") =
  some (str "x") := by decide
example : matchB (str "what was the message before ab\ncd") = none := by decide
example : matchB (str "whatwas the message before x") = none := by decide
example : matchB (str "WHAT WAS THE MESSAGE BEFORE FOO") = some (str "FOO") := by decide
example : matchB (str "what  was   the message before reset") =
  some (str "reset") := by decide
example : matchB (str "what was the message before x?y") = some (str "x") := by decide
example : matchB (str "what was the message before ?") = some (str "?") := by decide
example : matchB (str "hmm what was the before x") = none := by decide
example : matchB (str "what was the message before the \"cat\" incident?") =
  some (str "the \"cat\" incident") := by decide
example : matchB (str "what was the message before x\n") = some (str "x") := by decide
example : matchB (str "what was the the message before x") = none := by decide
example : matchB (str "what was themessage before x") = none := by decide
example : matchB (str "say what was the message before \"a b\"  ?") =
  some (str "\"a b\"  ") := by decide

example : matchesBeforeReset (str "before reset") = true := by decide
example : matchesBeforeReset (str "beforereset") = false := by decide
example : matchesBeforeReset (str "xbefore reset") = false := by decide
example : matchesBeforeReset (str "?before reset!") = true := by decide
example : matchesBeforeReset (str "before\treset") = true := by decide
example : matchesBeforeReset (str "before  resets") = false := by decide
example : matchesBeforeReset (str "before reset.") = true := by decide
example : matchesBeforeReset (str "is before  reset ok") = true := by decide
example : matchesBeforeReset (str "what was the message before reset?") = true := by decide

example : fqGo (str "\"foo\"") = some (str "foo") := by decide
example : fqGo (str "a \"b\" c \"d\"") = some (str "b") := by decide
example : fqGo (str "\"\"x\"") = some (str "x") := by decide
example : fqGo (str "\"unclosed") = none := by decide
example : fqGo (str "no quotes") = none := by decide

example : normalizeTxt (str "  Hello   World ") = str "hello world" := by decide
example : normalizeTxt (str "A\tB\nC") = str "a b c" := by decide
example : normalizeTxt (str "   ") = [] := by decide
example : pyStripWith isQuoteStripCh (pyStrip (str "\"foo\" bar")) =
  str "foo\" bar" := by decide

/-!
## Data model — turns, timestamps, conversation state
-/

/-- A conversation turn `{"role": ..., "content": ...}`. -/
structure Turn where
  role : Str
  content : Str
deriving DecidableEq

instance : Inhabited Turn := ⟨⟨[], []⟩⟩

/-- A UTC instant, as far as `strftime("%Y-%m-%d %H:%M:%S UTC")` observes it. -/
structure DTime where
  year : Nat
  month : Nat
  day : Nat
  hour : Nat
  minute : Nat
  second : Nat
deriving DecidableEq

/-- Decimal rendering of a natural number (Python `str(n)`). -/
def natStr (n : Nat) : Str := (Nat.repr n).data

/-- Zero-padded two-digit field. -/
def pad2 (n : Nat) : Str := if n < 10 then '0' :: natStr n else natStr n

/-- Zero-padded four-digit year. -/
def pad4 (n : Nat) : Str :=
  if n < 10 then str "000" ++ natStr n
  else if n < 100 then str "00" ++ natStr n
  else if n < 1000 then str "0" ++ natStr n
  else natStr n

/-- `ChatCog._format_timestamp`: `%Y-%m-%d %H:%M:%S UTC` on a UTC instant. -/
def fmtTs (t : DTime) : Str :=
  pad4 t.year ++ ['-'] ++ pad2 t.month ++ ['-'] ++ pad2 t.day ++ [' '] ++
  pad2 t.hour ++ [':'] ++ pad2 t.minute ++ [':'] ++ pad2 t.second ++ str " UTC"

example : fmtTs ⟨2024, 5, 7, 9, 30, 5⟩ = str "2024-05-07 09:30:05 UTC" := by decide

/-- Pattern A response when a reset marker exists. -/
def clearedStr (t : DTime) : Str :=
  str "History cleared at " ++ fmtTs t ++ str "; nothing retained."

/-- Pattern A response without a reset marker. -/
def noMarkerStr : Str :=
  str "Not in my stored channel buffer (no reset marker stored for this channel)."

/-- Pattern B response for an empty stored buffer. -/
def emptyBufStr : Str := str "Not in my stored channel buffer (stored messages: 0)."

/-- Pattern B response when no usable match exists, quoting count and cap. -/
def missFullStr (n mp : Nat) : Str :=
  str "Not in my stored channel buffer (stored messages: " ++ natStr n ++
    str "; max: " ++ natStr (mp * 2) ++ str ")."

/-- Pattern B response quoting the predecessor turn. -/
def answerStr (targetRaw roleS contentS : Str) : Str :=
  str "In my stored channel buffer, the message before \"" ++ targetRaw ++
    str "\" is (" ++ roleS ++ str "): " ++ contentS

/-- Python truthiness of the `quoted_target` local (`None` or a `str`):
    true exactly for a non-empty string, so a quoted span whose normalized
    content is empty counts as absent at `if quoted_target:`. -/
def pyTruthyStr : Option Str → Bool
  | none => false
  | some s => !s.isEmpty

/-- `ChatCog._resolve_previous_message_query`, as a function of the channel
    history, the channel reset marker, the configured `MAX_CONTEXT_PAIRS` and
    the (stripped) message content. `none` means "no deterministic answer". -/
def resolvePrev (mp : Nat) (stored : List Turn) (marker : Option DTime)
    (content : Str) : Option Str :=
  if matchesBeforeReset (lowerL content) then
    some (match marker with
      | some t => clearedStr t
      | none => noMarkerStr)
  else
    match matchB content with
    | none => none
    | some g1 =>
      let target_raw := pyStripWith isQuoteStripCh (pyStrip g1)
      let target := normalizeTxt target_raw
      if target = [] then none
      else if stored = [] then some emptyBufStr
      else
        let quoted := (fqGo g1).map normalizeTxt
        let isMatchFn := fun (mc : Str) =>
          let nm := normalizeTxt mc
          if pyTruthyStr quoted then nm == quoted.getD []
          else if target.length < 3 then nm == target
          else isSubstr target nm
        let targetIndices := (stored.enum.filter (fun p => isMatchFn p.2.content)).map
          Prod.fst
        match targetIndices.getLast? with
        | none => some (missFullStr stored.length mp)
        | some mi =>
          if mi = 0 then some (missFullStr stored.length mp)
          else
            let prev := stored.getD (mi - 1) default
            let prevContent :=
              if pyStrip prev.content = [] then str "(empty)" else pyStrip prev.content
            some (answerStr target_raw prev.role prevContent)

/-- The cog state read and written by the handlers: per-channel history
    (`defaultdict(list)`: an absent key reads as the empty list) and
    per-channel reset markers. -/
structure CogState where
  history : Nat → List Turn
  markers : Nat → Option DTime

/-- Pointwise update of a per-channel map. -/
def upd {α : Type} (f : Nat → α) (k : Nat) (v : α) : Nat → α :=
  fun x => if x = k then v else f x

/-- The state of a fresh `ChatCog`. -/
def emptyCog : CogState := ⟨fun _ => [], fun _ => none⟩

/-- `ChatCog.reset_history`: clear the channel turns and stamp the marker. -/
def resetHistory (st : CogState) (cid : Nat) (now : DTime) : CogState :=
  ⟨upd st.history cid [], upd st.markers cid (some now)⟩

/-- `ChatCog._resolve_previous_message_query` as the method reads cog state. -/
def cogResolve (mp : Nat) (st : CogState) (cid : Nat) (content : Str) : Option Str :=
  resolvePrev mp (st.history cid) (st.markers cid) content

def exCats : List Turn :=
  [⟨str "user", str "I like cats"⟩, ⟨str "assistant", str "Nice!"⟩,
   ⟨str "user", str "I like dogs"⟩]

example : resolvePrev 10 exCats none (str "what was the message before \"I like dogs\"") =
    some (str "In my stored channel buffer, the message before \"I like dogs\" is (assistant): Nice!") := by
  decide

example : resolvePrev 10 [] none (str "what was the message before \"foo\"") =
    some (str "Not in my stored channel buffer (stored messages: 0).") := by decide

example : resolvePrev 10 exCats none (str "what was the message before zebra") =
    some (str "Not in my stored channel buffer (stored messages: 3; max: 20).") := by
  decide

example : resolvePrev 10 exCats none (str "what was the message before \"I like cats\"") =
    some (str "Not in my stored channel buffer (stored messages: 3; max: 20).") := by
  decide

example : resolvePrev 10 exCats none (str "what was the message before dogs") =
    some (str "In my stored channel buffer, the message before \"dogs\" is (assistant): Nice!") := by
  decide

example : resolvePrev 10 exCats none (str "hello there") = none := by decide

def exXyzAb : List Turn := [⟨str "user", str "xyz"⟩, ⟨str "assistant", str "ab"⟩]

example : resolvePrev 10 exXyzAb none (str "what was the message before \" \" ab") =
    some (str "In my stored channel buffer, the message before \"ab\" is (user): xyz") := by
  decide

example : resolvePrev 10 exXyzAb none (str "what was the message before \"ab\"") =
    some (str "In my stored channel buffer, the message before \"ab\" is (user): xyz") := by
  decide

example : resolvePrev 10 exCats (some ⟨2024, 5, 7, 9, 30, 5⟩)
    (str "what happened before reset?") =
    some (str "History cleared at 2024-05-07 09:30:05 UTC; nothing retained.") := by
  decide

/-!
## Streaming response orchestrator — `bot/events.py::ChatCog.on_message`,
`bot/commands.py::SlashCog.ask`, `utils/rate_limiter.py::RateLimiter`

The handlers are embedded as state transformers that also emit the ordered
trace of their externally visible actions (Discord sends/edits, inference
invocations, transcript writes). The inference stream is an explicit
parameter: either a finite token list or a failure after some tokens.
-/

/-- An externally visible action of a handler, in program order. -/
inductive Eff
  | reply (s : Str)
  | edit (s : Str)
  | send (s : Str)
  | respond (s : Str)
  | deferResp
  | followup (s : Str)
  | inferCall
  | transcript (role : Str) (content : Str)
deriving DecidableEq

/-- An inbound Discord message, with its permission predicates evaluated. -/
structure InMsg where
  authorIsBot : Bool
  channelAllowed : Bool
  userAllowed : Bool
  channelId : Nat
  content : Str

/-- The outcome of the Ollama stream: all tokens, or failure after some. -/
inductive StreamOutcome
  | ok (tokens : List Str)
  | err (tokens : List Str) (msg : Str)

def thinkingStr : Str := str "💭 *Thinking…*"

def noRespStr : Str := str "*(no response)*"

/-- The `on_message` error text shown on `OllamaError`. -/
def ollamaErrStr (e : Str) : Str :=
  str "❌ **Ollama error:** " ++ e ++
    str "\nMake sure Ollama is running and the model is available."

/-- The `/ask` error text shown on `OllamaError`. -/
def ollamaErrShort (e : Str) : Str := str "❌ **Ollama error:** " ++ e

def permErrStr : Str := str "❌ You don't have permission to use this command here."

/-- Python `history[-k:]` on lists: for `k = 0` this is the whole list. -/
def pySliceLast (l : List Turn) (k : Nat) : List Turn :=
  if k = 0 then l else l.drop (l.length - k)

/-- `ChatCog._trim_history` on one channel's turn list. -/
def trimH (mp : Nat) (h : List Turn) : List Turn :=
  if h.length > mp * 2 then pySliceLast h (mp * 2) else h

def STREAM_EDIT_THRESHOLD : Nat := 50

def DISCORD_MAX_LENGTH : Nat := 2000

/-- One streamed token: accumulate, and emit a preview edit whenever at least
    `STREAM_EDIT_THRESHOLD` new characters arrived since the last edit.
    State: (accumulated, last_edit_len, emitted effects). -/
def sfStep (acc : Str × Nat × List Eff) (tok : Str) : Str × Nat × List Eff :=
  let acc2 := acc.1 ++ tok
  if acc2.length - acc.2.1 ≥ STREAM_EDIT_THRESHOLD then
    (acc2, acc2.length,
      acc.2.2 ++ [Eff.edit ((split_message acc2 DISCORD_MAX_LENGTH).headD [])])
  else (acc2, acc.2.1, acc.2.2)

/-- The `async for token in chat_stream(...)` loop body over all tokens. -/
def streamFold (tokens : List Str) : Str × Nat × List Eff :=
  tokens.foldl sfStep ([], 0, [])

/-- `ChatCog.on_message`, for a given stream outcome. -/
def onMessage (mp : Nat) (pfx : Str) (st : CogState) (m : InMsg)
    (outcome : StreamOutcome) : CogState × List Eff :=
  if m.authorIsBot then (st, [])
  else if !m.channelAllowed then (st, [])
  else if !m.userAllowed then (st, [])
  else if pfx.isPrefixOf m.content then (st, [])
  else
    let content := pyStrip m.content
    if content = [] then (st, [])
    else
      match resolvePrev mp (st.history m.channelId) (st.markers m.channelId) content with
      | some r => (st, [Eff.reply r])
      | none =>
        let cid := m.channelId
        let h1 := trimH mp (st.history cid ++ [⟨str "user", content⟩])
        let st1 : CogState := ⟨upd st.history cid h1, st.markers⟩
        let pre : List Eff := [Eff.transcript (str "user") content,
          Eff.reply thinkingStr, Eff.inferCall]
        match outcome with
        | .err toks emsg =>
          (⟨upd st1.history cid h1.dropLast, st1.markers⟩,
            pre ++ (streamFold toks).2.2 ++ [Eff.edit (ollamaErrStr emsg)])
        | .ok toks =>
          let acc := if (streamFold toks).1 = [] then noRespStr else (streamFold toks).1
          let chunks := split_message acc DISCORD_MAX_LENGTH
          (⟨upd st1.history cid (trimH mp (h1 ++ [⟨str "assistant", acc⟩])), st1.markers⟩,
            pre ++ (streamFold toks).2.2 ++ [Eff.edit (chunks.headD [])] ++
              chunks.tail.map Eff.send ++ [Eff.transcript (str "assistant") acc])

/-- `SlashCog.ask`: one-shot prompt, never touches channel history. -/
def slashAsk (mp : Nat) (st : CogState) (permsOk : Bool) (cid : Nat) (prompt : Str)
    (outcome : Except Str Str) : CogState × List Eff :=
  if !permsOk then (st, [Eff.respond permErrStr])
  else
    match resolvePrev mp (st.history cid) (st.markers cid) prompt with
    | some r => (st, [Eff.deferResp, Eff.followup r])
    | none =>
      match outcome with
      | .error e => (st, [Eff.deferResp, Eff.inferCall, Eff.followup (ollamaErrShort e)])
      | .ok resp =>
        let resp2 := if resp = [] then noRespStr else resp
        let chunks := split_message resp2 DISCORD_MAX_LENGTH
        (st, [Eff.deferResp, Eff.inferCall, Eff.followup (chunks.headD [])] ++
          chunks.tail.map Eff.send)

/-- `RateLimiter._clean`: drop window-expired timestamps from the front. -/
def rlClean (window now : Int) (bucket : List Int) : List Int :=
  bucket.dropWhile (fun t => now - t > window)

/-- `RateLimiter.is_allowed` as a pure function of the bucket and the clock:
    returns the decision and the updated bucket. -/
def rlIsAllowed (maxR : Nat) (window now : Int) (bucket : List Int) :
    Bool × List Int :=
  let b := rlClean window now bucket
  if b.length < maxR then (true, b ++ [now]) else (false, b)

/-!
## Context store operation sequences (for the C1 invariant)
-/

/-- A context-store mutation as the orchestrator performs it on one channel:
    `app t` is `history.append(t)` immediately followed by `_trim_history`
    (`events.py` lines 250-251 and 308-311); `trimOp` is a bare trim. -/
inductive StoreOp
  | app (t : Turn)
  | trimOp

/-- One store operation on one channel's turn list. -/
def storeStep (mp : Nat) (h : List Turn) : StoreOp → List Turn
  | .app t => trimH mp (h ++ [t])
  | .trimOp => trimH mp h

/-- Run a sequence of store operations on one channel, starting empty. -/
def runOps (mp : Nat) (ops : List StoreOp) : List Turn :=
  ops.foldl (storeStep mp) []

/-- The full untrimmed append sequence of an operation list. -/
def appendedTurns (ops : List StoreOp) : List Turn :=
  ops.filterMap (fun op => match op with | .app t => some t | .trimOp => none)

/-- The most recent `k` elements (all of them if fewer). -/
def takeRightT (k : Nat) (l : List Turn) : List Turn := l.drop (l.length - k)

lemma takeRightT_all (k : Nat) (l : List Turn) (h : l.length ≤ k) :
    takeRightT k l = l := by
  unfold takeRightT
  rw [show l.length - k = 0 by omega, List.drop_zero]

lemma takeRightT_len (k : Nat) (l : List Turn) : (takeRightT k l).length ≤ k := by
  unfold takeRightT
  rw [List.length_drop]
  omega

lemma trimH_eq_takeRight (mp : Nat) (hmp : 0 < mp) (h : List Turn) :
    trimH mp h = takeRightT (mp * 2) h := by
  unfold trimH pySliceLast takeRightT
  by_cases hl : h.length > mp * 2
  · rw [if_pos hl, if_neg (by omega)]
  · rw [if_neg hl, show h.length - mp * 2 = 0 by omega, List.drop_zero]

lemma takeRightT_absorb (k : Nat) (l xs : List Turn) :
    takeRightT k (takeRightT k l ++ xs) = takeRightT k (l ++ xs) := by
  unfold takeRightT
  rw [List.drop_append_eq_append_drop, List.drop_append_eq_append_drop]
  congr 1
  · rw [List.drop_drop]
    congr 1
    simp only [List.length_append, List.length_drop]
    omega
  · congr 1
    simp only [List.length_append, List.length_drop]
    omega

lemma runOps_aux (mp : Nat) (hmp : 0 < mp) :
    ∀ (ops : List StoreOp) (h : List Turn), h.length ≤ mp * 2 →
      ops.foldl (storeStep mp) h = takeRightT (mp * 2) (h ++ appendedTurns ops) := by
  intro ops
  induction ops with
  | nil =>
    intro h hlen
    simp only [List.foldl_nil, appendedTurns, List.filterMap_nil, List.append_nil]
    exact (takeRightT_all _ _ hlen).symm
  | cons op rest ih =>
    intro h hlen
    cases op with
    | app t =>
      rw [List.foldl_cons]
      have hstep : storeStep mp h (StoreOp.app t) = takeRightT (mp * 2) (h ++ [t]) := by
        unfold storeStep
        exact trimH_eq_takeRight mp hmp (h ++ [t])
      rw [hstep, ih _ (takeRightT_len _ _), takeRightT_absorb]
      have happ : appendedTurns (StoreOp.app t :: rest) = t :: appendedTurns rest := by
        simp [appendedTurns]
      rw [happ, List.append_assoc]
      rfl
    | trimOp =>
      rw [List.foldl_cons]
      have hstep : storeStep mp h StoreOp.trimOp = h := by
        unfold storeStep trimH
        rw [if_neg (by omega)]
      rw [hstep, ih _ hlen,
        show appendedTurns (StoreOp.trimOp :: rest) = appendedTurns rest by
          simp [appendedTurns]]

/-- C1: starting from an empty channel, after any sequence of append
    operations (each immediately trimmed, as the orchestrator does) and bare
    trims, the stored turn list has length at most `2 * MAX_CONTEXT_PAIRS`,
    and it is exactly the most recent suffix of the full untrimmed append
    sequence, in original order. -/
theorem C1_store_invariant (mp : Nat) (hmp : 0 < mp) (ops : List StoreOp) :
    runOps mp ops = takeRightT (mp * 2) (appendedTurns ops) ∧
    (runOps mp ops).length ≤ mp * 2 := by
  have hrun : runOps mp ops = takeRightT (mp * 2) (appendedTurns ops) := by
    unfold runOps
    rw [runOps_aux mp hmp ops [] (by simp)]
    rfl
  exact ⟨hrun, hrun ▸ takeRightT_len _ _⟩

theorem C1_store_invariant_witness :
    (0 : Nat) < 1 ∧
    runOps 1 [StoreOp.app ⟨str "user", str "a"⟩, StoreOp.app ⟨str "assistant", str "b"⟩,
      StoreOp.app ⟨str "user", str "c"⟩] =
      takeRightT 2 (appendedTurns [StoreOp.app ⟨str "user", str "a"⟩,
        StoreOp.app ⟨str "assistant", str "b"⟩, StoreOp.app ⟨str "user", str "c"⟩]) ∧
    runOps 1 [StoreOp.app ⟨str "user", str "a"⟩, StoreOp.app ⟨str "assistant", str "b"⟩,
      StoreOp.app ⟨str "user", str "c"⟩] =
      [⟨str "assistant", str "b"⟩, ⟨str "user", str "c"⟩] :=
  ⟨by decide,
    (C1_store_invariant 1 (by decide) [StoreOp.app ⟨str "user", str "a"⟩,
      StoreOp.app ⟨str "assistant", str "b"⟩, StoreOp.app ⟨str "user", str "c"⟩]).1,
    by decide⟩

/-- C5: a query matching `before reset` (case-insensitively, word-bounded) is
    answered deterministically: with a reset marker the response is exactly
    `History cleared at <formatted UTC timestamp>; nothing retained.` with the
    marker's timestamp — in particular a reset immediately followed by such a
    query returns that string with the reset's own timestamp — and without a
    marker it is exactly the fixed no-marker buffer string. -/
theorem C5_before_reset (mp : Nat) (st : CogState) (cid : Nat) (content : Str)
    (now : DTime) (h : matchesBeforeReset (lowerL content) = true) :
    cogResolve mp st cid content =
      some (match st.markers cid with
        | some t => clearedStr t
        | none => noMarkerStr) ∧
    cogResolve mp (resetHistory st cid now) cid content = some (clearedStr now) := by
  constructor
  · unfold cogResolve resolvePrev
    rw [if_pos h]
  · unfold cogResolve resolvePrev resetHistory
    rw [if_pos h]
    simp [upd]

theorem C5_before_reset_witness :
    matchesBeforeReset (lowerL (str "what happened before reset?")) = true ∧
    cogResolve 10 (resetHistory emptyCog 7 ⟨2024, 5, 7, 9, 30, 5⟩) 7
      (str "what happened before reset?") =
      some (str "History cleared at 2024-05-07 09:30:05 UTC; nothing retained.") := by
  refine ⟨by decide, ?_⟩
  rw [(C5_before_reset 10 emptyCog 7 (str "what happened before reset?")
    ⟨2024, 5, 7, 9, 30, 5⟩ (by decide)).2]
  decide

/-- C9: pattern A takes precedence over pattern B: whenever the content
    contains word-bounded `before reset` (case-insensitively), the resolver
    returns the reset-marker response, independent of the stored buffer, even
    if the content also matches the `what was the message before X` pattern. -/
theorem C9_pattern_precedence (mp : Nat) (stored : List Turn) (marker : Option DTime)
    (content : Str) (h : matchesBeforeReset (lowerL content) = true) :
    resolvePrev mp stored marker content =
      some (match marker with | some t => clearedStr t | none => noMarkerStr) ∧
    resolvePrev mp stored marker content = resolvePrev mp [] marker content := by
  constructor
  · unfold resolvePrev
    rw [if_pos h]
  · unfold resolvePrev
    rw [if_pos h, if_pos h]

theorem C9_pattern_precedence_witness :
    matchesBeforeReset (lowerL (str "what was the message before reset?")) = true ∧
    matchB (str "what was the message before reset?") = some (str "reset") ∧
    resolvePrev 10 exCats none (str "what was the message before reset?") =
      some noMarkerStr :=
  ⟨by decide, by decide,
    (C9_pattern_precedence 10 exCats none
      (str "what was the message before reset?") (by decide)).1⟩

/-- C7: the deterministic resolver is a pure function of the conversation
    history, the reset marker and the input text: any two cog states and
    channels agreeing on the history and marker of the queried channel yield
    identical results, and (by construction of the embedding) the resolver
    emits no effects and writes no state. -/
theorem C7_resolver_pure (mp : Nat) (st1 st2 : CogState) (c1 c2 : Nat) (content : Str)
    (hh : st1.history c1 = st2.history c2) (hm : st1.markers c1 = st2.markers c2) :
    cogResolve mp st1 c1 content = cogResolve mp st2 c2 content := by
  unfold cogResolve
  rw [hh, hm]

def cogOnlyDogs : CogState := ⟨upd (fun _ => []) 1 exCats, fun _ => none⟩

def cogDogsElsewhere : CogState :=
  ⟨upd (upd (fun _ => []) 5 [⟨str "user", str "zzz"⟩]) 2 exCats, fun _ => none⟩

theorem C7_resolver_pure_witness :
    cogOnlyDogs.history 1 = cogDogsElsewhere.history 2 ∧
    cogResolve 10 cogOnlyDogs 1 (str "what was the message before dogs") =
      cogResolve 10 cogDogsElsewhere 2 (str "what was the message before dogs") :=
  ⟨by decide,
    C7_resolver_pure 10 cogOnlyDogs cogDogsElsewhere 1 2
      (str "what was the message before dogs") (by decide) (by decide)⟩

lemma optSomePush (o : Option Nat) (m : Str) (f : Nat → Str) :
    (match o with
     | none => some m
     | some mi => if mi = 0 then some m else some (f mi)) =
    some (match o with
     | none => m
     | some mi => if mi = 0 then m else f mi) := by
  cases o with
  | none => rfl
  | some mi => by_cases h : mi = 0 <;> simp [h]

/-- The match predicate of Pattern B as the (amended) claim states it: a
    quoted phrase whose quoted span normalizes to a non-empty string ⇒ exact
    normalized equality with that quoted content; otherwise (no quoted span,
    or one normalizing to empty) the bare rules apply: target shorter than 3
    characters ⇒ exact equality, else substring containment. -/
def specMatchPred (g1 : Str) (mc : Str) : Bool :=
  let target := normalizeTxt (pyStripWith isQuoteStripCh (pyStrip g1))
  match (fqGo g1).map normalizeTxt with
  | some q =>
    if q = [] then
      if target.length < 3 then normalizeTxt mc == target
      else isSubstr target (normalizeTxt mc)
    else normalizeTxt mc == q
  | none =>
    if target.length < 3 then normalizeTxt mc == target
    else isSubstr target (normalizeTxt mc)

/-- The Pattern B answer as the (amended) claim states it: empty buffer ⇒ the
    short zero-count string; otherwise collect matching indices in order, take
    the last; none or index 0 ⇒ the count-and-cap string; else quote the
    predecessor turn. -/
def specAnswerB (mp : Nat) (stored : List Turn) (g1 : Str) : Str :=
  if stored = [] then emptyBufStr
  else
    let idxs := (stored.enum.filter (fun p => specMatchPred g1 p.2.content)).map Prod.fst
    match idxs.getLast? with
    | none => missFullStr stored.length mp
    | some mi =>
      if mi = 0 then missFullStr stored.length mp
      else
        let prev := stored.getD (mi - 1) default
        answerStr (pyStripWith isQuoteStripCh (pyStrip g1)) prev.role
          (if pyStrip prev.content = [] then str "(empty)" else pyStrip prev.content)

/-- C4 (amended): for a query matching Pattern B (and not Pattern A) whose
    extracted phrase has a non-empty normalized target, the resolver answers
    exactly as the claim's algorithm describes — a quoted span normalizing to
    a non-empty string ⇒ exact normalized equality with the quoted content (a
    quoted span normalizing to empty is treated as unquoted, by Python
    truthiness of `quoted_target`), short bare target ⇒ exact equality,
    otherwise substring containment; last (most recent) match selected; no
    match or match at index 0 ⇒ the fixed count-and-cap string — except that
    an empty stored buffer is answered with the shorter string without the
    `max:` part. -/
theorem C4_previous_message_amended (mp : Nat) (stored : List Turn)
    (marker : Option DTime) (content g1 : Str)
    (hA : matchesBeforeReset (lowerL content) = false)
    (hB : matchB content = some g1)
    (hT : normalizeTxt (pyStripWith isQuoteStripCh (pyStrip g1)) ≠ []) :
    resolvePrev mp stored marker content = some (specAnswerB mp stored g1) := by
  by_cases hs : stored = []
  · simp [resolvePrev, specAnswerB, hA, hB, hT, hs]
  · cases hq : fqGo g1 with
    | none =>
      simp only [resolvePrev, specAnswerB, specMatchPred, pyTruthyStr, hA, hB, hT, hs, hq]
      simp [hT, hs]
      exact optSomePush _ _ _
    | some q =>
      by_cases hqe : normalizeTxt q = []
      · simp only [resolvePrev, specAnswerB, specMatchPred, pyTruthyStr,
          hA, hB, hT, hs, hq, hqe]
        simp [hT, hs, hqe]
        exact optSomePush _ _ _
      · obtain ⟨c, cs, hcs⟩ := List.exists_cons_of_ne_nil hqe
        simp only [resolvePrev, specAnswerB, specMatchPred, pyTruthyStr,
          hA, hB, hT, hs, hq, hcs]
        simp [hT, hs, hcs]
        exact optSomePush _ _ _

/-- C4 counterexample: on an empty stored buffer with no match the claim
    requires the count-and-cap string, but the code answers with the shorter
    zero-count string without the `max:` part. -/
theorem C4_previous_message_counterexample :
    resolvePrev 10 [] none (str "what was the message before \"foo\"") =
      some (str "Not in my stored channel buffer (stored messages: 0).") ∧
    missFullStr 0 10 =
      str "Not in my stored channel buffer (stored messages: 0; max: 20)." ∧
    some (str "Not in my stored channel buffer (stored messages: 0).") ≠
      some (missFullStr 0 10) := by decide

theorem C4_previous_message_witness :
    resolvePrev 10 exCats none (str "what was the message before \"I like dogs\"") =
      some (specAnswerB 10 exCats (str "\"I like dogs\"")) ∧
    specAnswerB 10 exCats (str "\"I like dogs\"") =
      str "In my stored channel buffer, the message before \"I like dogs\" is (assistant): Nice!" :=
  ⟨C4_previous_message_amended 10 exCats none
      (str "what was the message before \"I like dogs\"") (str "\"I like dogs\"")
      (by decide) (by decide) (by decide),
    by decide⟩

/-- C6: whenever the deterministic resolver produces an answer, `on_message`
    replies with exactly that literal answer and terminates with the cog state
    untouched — no turn appended, no trim, no transcript write, and no
    inference call — and `/ask` likewise sends only the literal answer after
    its defer, with no state change and no inference call. -/
theorem C6_deterministic_frame (mp : Nat) (pfx : Str) (st : CogState) (m : InMsg)
    (outcome : StreamOutcome) (r : Str) (cid : Nat) (prompt : Str) (r2 : Str)
    (outcome2 : Except Str Str)
    (h1 : m.authorIsBot = false) (h2 : m.channelAllowed = true)
    (h3 : m.userAllowed = true) (h4 : pfx.isPrefixOf m.content = false)
    (h5 : resolvePrev mp (st.history m.channelId) (st.markers m.channelId)
      (pyStrip m.content) = some r)
    (h6 : resolvePrev mp (st.history cid) (st.markers cid) prompt = some r2) :
    onMessage mp pfx st m outcome = (st, [Eff.reply r]) ∧
    slashAsk mp st true cid prompt outcome2 = (st, [Eff.deferResp, Eff.followup r2]) := by
  have hne : pyStrip m.content ≠ [] := by
    intro hc
    rw [hc] at h5
    rw [show resolvePrev mp (st.history m.channelId) (st.markers m.channelId) [] = none
      from rfl] at h5
    exact Option.noConfusion h5
  constructor
  · simp [onMessage, h1, h2, h3, h4, hne, h5]
  · simp [slashAsk, h6]

theorem C6_deterministic_frame_witness :
    onMessage 10 (str "!") emptyCog
        ⟨false, true, true, 7, str " what was the message before \"foo\" "⟩ (.ok []) =
      (emptyCog, [Eff.reply emptyBufStr]) ∧
    slashAsk 10 emptyCog true 3 (str "what was the message before \"foo\"") (.ok []) =
      (emptyCog, [Eff.deferResp, Eff.followup emptyBufStr]) :=
  C6_deterministic_frame 10 (str "!") emptyCog
    ⟨false, true, true, 7, str " what was the message before \"foo\" "⟩ (.ok [])
    emptyBufStr 3 (str "what was the message before \"foo\"") emptyBufStr (.ok [])
    rfl rfl rfl (by decide) (by decide) (by decide)

lemma upd_upd {α : Type} (f : Nat → α) (k : Nat) (a b : α) :
    upd (upd f k a) k b = upd f k b := by
  funext x
  unfold upd
  by_cases hx : x = k <;> simp [hx]

lemma sfEdits : ∀ (toks : List Str) (a : Str × Nat × List Eff),
    (∀ e ∈ a.2.2, ∃ s, e = Eff.edit s) →
    ∀ e ∈ (toks.foldl sfStep a).2.2, ∃ s, e = Eff.edit s := by
  intro toks
  induction toks with
  | nil =>
    intro a ha
    simpa using ha
  | cons t ts ih =>
    intro a ha
    rw [List.foldl_cons]
    apply ih
    by_cases hc : STREAM_EDIT_THRESHOLD ≤ a.1.length + t.length - a.2.1
    · have hstep : (sfStep a t).2.2 =
          a.2.2 ++ [Eff.edit ((split_message (a.1 ++ t) DISCORD_MAX_LENGTH).headD [])] := by
        simp [sfStep, hc]
      rw [hstep]
      intro e he
      rcases List.mem_append.mp he with he | he
      · exact ha e he
      · simp only [List.mem_singleton] at he
        exact ⟨_, he⟩
    · have hstep : (sfStep a t).2.2 = a.2.2 := by
        simp [sfStep, hc]
      rw [hstep]
      exact ha

lemma streamFold_no_infer (toks : List Str) :
    (streamFold toks).2.2.count Eff.inferCall = 0 := by
  rw [List.count_eq_zero]
  intro hmem
  obtain ⟨s, hs⟩ := sfEdits toks ([], 0, []) (by simp) Eff.inferCall hmem
  exact Eff.noConfusion hs

/-- C2 (amended): when the stream fails after the user turn was appended, the
    orchestrator pops the just-appended user turn; provided the prior history
    was below the `2 * MAX_CONTEXT_PAIRS` cap (so the append triggered no
    trim), the resulting channel history equals exactly the prior history; a
    user-visible Ollama error edit is delivered and inference is invoked
    exactly once (no automatic retry). -/
theorem C2_rollback_amended (mp : Nat) (pfx : Str) (st : CogState) (m : InMsg)
    (toks : List Str) (emsg : Str)
    (h1 : m.authorIsBot = false) (h2 : m.channelAllowed = true)
    (h3 : m.userAllowed = true) (h4 : pfx.isPrefixOf m.content = false)
    (h5 : pyStrip m.content ≠ [])
    (h6 : resolvePrev mp (st.history m.channelId) (st.markers m.channelId)
      (pyStrip m.content) = none)
    (h7 : (st.history m.channelId).length < mp * 2) :
    (onMessage mp pfx st m (.err toks emsg)).1.history m.channelId =
      st.history m.channelId ∧
    (onMessage mp pfx st m (.err toks emsg)).2.count Eff.inferCall = 1 ∧
    Eff.edit (ollamaErrStr emsg) ∈ (onMessage mp pfx st m (.err toks emsg)).2 := by
  have htrim : trimH mp (st.history m.channelId ++ [⟨str "user", pyStrip m.content⟩]) =
      st.history m.channelId ++ [⟨str "user", pyStrip m.content⟩] := by
    unfold trimH
    rw [if_neg (by
      simp only [List.length_append, List.length_singleton]
      omega)]
  have hrun : onMessage mp pfx st m (.err toks emsg) =
      (⟨upd st.history m.channelId
          (trimH mp (st.history m.channelId ++
            [⟨str "user", pyStrip m.content⟩])).dropLast, st.markers⟩,
       [Eff.transcript (str "user") (pyStrip m.content), Eff.reply thinkingStr,
        Eff.inferCall] ++ (streamFold toks).2.2 ++ [Eff.edit (ollamaErrStr emsg)]) := by
    simp [onMessage, h1, h2, h3, h4, h5, h6, upd_upd]
  refine ⟨?_, ?_, ?_⟩
  · rw [hrun]
    simp [upd, htrim, List.dropLast_concat]
  · rw [hrun]
    simp only [List.count_append, streamFold_no_infer]
    rfl
  · rw [hrun]
    simp

def cogAB : CogState :=
  ⟨upd (fun _ => []) 7 [⟨str "user", str "alpha"⟩, ⟨str "assistant", str "beta"⟩],
   fun _ => none⟩

def msgGamma : InMsg := ⟨false, true, true, 7, str "gamma"⟩

/-- C2 counterexample: with `MAX_CONTEXT_PAIRS = 1` the prior history
    `[A, B]` is at the cap, so appending the user turn trims `A` away; after
    the stream fails and the rollback pops the user turn, the history is
    `[B]`, not the prior `[A, B]` the claim requires. -/
theorem C2_rollback_counterexample :
    cogAB.history 7 = [⟨str "user", str "alpha"⟩, ⟨str "assistant", str "beta"⟩] ∧
    (onMessage 1 (str "!") cogAB msgGamma (.err [] (str "boom"))).1.history 7 =
      [⟨str "assistant", str "beta"⟩] ∧
    (onMessage 1 (str "!") cogAB msgGamma (.err [] (str "boom"))).1.history 7 ≠
      cogAB.history 7 := by decide

theorem C2_rollback_witness :
    (onMessage 10 (str "!") cogAB msgGamma (.err [] (str "boom"))).1.history 7 =
      cogAB.history 7 :=
  (C2_rollback_amended 10 (str "!") cogAB msgGamma [] (str "boom")
    rfl rfl rfl (by decide) (by decide) (by decide) (by decide)).1

/-- C8: the claim is right about the intended design but the code never
    consults the rate limiter: `RateLimiter.is_allowed` (embedded as
    `rlIsAllowed`) would deny a sixth request inside the window with the
    default limits, yet `on_message` — whose decision pipeline contains no
    rate-limit check at all — still appends the user turn, mutates history
    and invokes inference for any such message. -/
theorem C8_rate_limit_not_enforced :
    (rlIsAllowed 5 60 50 [0, 10, 20, 30, 40]).1 = false ∧
    (onMessage 10 (str "!") emptyCog ⟨false, true, true, 7, str "hello"⟩
      (.ok [str "hi"])).1.history 7 =
      [⟨str "user", str "hello"⟩, ⟨str "assistant", str "hi"⟩] ∧
    emptyCog.history 7 = [] ∧
    Eff.inferCall ∈ (onMessage 10 (str "!") emptyCog ⟨false, true, true, 7, str "hello"⟩
      (.ok [str "hi"])).2 := by decide
